import Mathlib

/-!
Shallow embedding of crebsy/etherscan-cache (src/app.py, src/constructor_args.py)
and proofs about its caching, verification, invalidation, key-rotation and
constructor-argument recovery behaviour.

Python values are embedded as follows: strings become `String`, JSON objects
become structures, optional / possibly-`None` strings become `Option String`,
and fallible code returns `Except Err` where `Err` enumerates both the
deliberate `HTTPException`s the code raises and the Python runtime errors
(`TypeError`, `KeyError`, `UnboundLocalError`, ...) that unguarded code paths
can raise.  The two caches (the diskcache durable store and the
`ttl_cache`-based transient store) are association lists inside an explicit
state record, and the network is an oracle inside an environment record.
-/

namespace EtherscanCache

/-- Association-list lookup keyed by decidable equality; first binding wins,
mirroring a keyed store where `ainsert` below replaces in place. -/
def alookup {α β : Type} [DecidableEq α] : List (α × β) → α → Option β
  | [], _ => none
  | (k, v) :: rest, a => if k = a then some v else alookup rest a

/-- Association-list insert-or-replace: replaces the first binding of the key
in place, otherwise appends a new binding at the end. -/
def ainsert {α β : Type} [DecidableEq α] : List (α × β) → α → β → List (α × β)
  | [], a, b => [(a, b)]
  | (k, v) :: rest, a, b => if k = a then (a, b) :: rest else (k, v) :: ainsert rest a b

theorem alookup_ainsert_self {α β : Type} [DecidableEq α] (l : List (α × β)) (a : α) (b : β) :
    alookup (ainsert l a b) a = some b := by
  induction l with
  | nil => simp [ainsert, alookup]
  | cons kv rest ih =>
      obtain ⟨k, v⟩ := kv
      by_cases h : k = a
      · simp [ainsert, h, alookup]
      · simp [ainsert, h, alookup, ih]

theorem alookup_ainsert_ne {α β : Type} [DecidableEq α] (l : List (α × β)) (a a' : α) (b : β)
    (h : a ≠ a') : alookup (ainsert l a b) a' = alookup l a' := by
  induction l with
  | nil => simp [ainsert, alookup, h]
  | cons kv rest ih =>
      obtain ⟨k, v⟩ := kv
      by_cases hk : k = a
      · subst hk
        simp [ainsert, alookup, h]
      · by_cases hk' : k = a'
        · simp [ainsert, hk, alookup, hk', Ne.symm h]
        · simp [ainsert, hk, alookup, hk', ih]

/-- Python truthiness of an optional string: `None` and `""` are falsy. -/
def pyFalsy : Option String → Bool
  | none => true
  | some s => s == ""

/-- Python `bool(x)` for `x` an optional string (`dict.get` result):
true exactly when the value is present and non-empty. -/
def pyTruthy (x : Option String) : Bool := !(pyFalsy x)

/-- List-level string drop, used to embed Python slicing. -/
def strDrop (s : String) (n : Nat) : String := ⟨s.data.drop n⟩

/-- List-level string take. -/
def strTake (s : String) (n : Nat) : String := ⟨s.data.take n⟩

/-- Python slice `s[-k:]` for `k > 0`: the trailing `min k (len s)` characters. -/
def pySliceLast (s : String) (k : Nat) : String := strDrop s (s.length - k)

/-! ## Data model: explorer responses and error taxonomy -/

/-- One entry of an explorer `result` list (a JSON object).  A field holds
`none` when the key is absent from the object; `SourceCode` is read with
`dict.get` (absent ⇒ `None`), `ConstructorArguments` with `[]` indexing
(absent ⇒ `KeyError`). -/
structure Entry where
  sourceCode : Option String
  constructorArguments : Option String
deriving DecidableEq, Repr

/-- The `result` field of an explorer response: either a JSON string (the
`getabi` shape, including the not-verified sentinel) or a list of objects
(the `getsourcecode` shape). -/
inductive ResVal where
  | rstr (s : String)
  | rlist (l : List Entry)
deriving DecidableEq, Repr

/-- An explorer JSON response `{status, message, result}`. -/
structure Response where
  status : String
  message : String
  result : ResVal
deriving DecidableEq, Repr

/-- Errors raised by the embedded code: deliberate `HTTPException`s
(`contractNotVerified` is the subclass caught by `cached_api`), the
`NotImplementedError` for unsupported actions, `raise_for_status` failures,
and Python runtime errors reachable on unguarded paths. -/
inductive Err where
  | contractNotVerified (code : Nat) (detail : String)
  | http (code : Nat) (detail : String)
  | notImplemented (action : String)
  | upstreamError (code : Nat)
  | typeError
  | keyError (k : String)
  | indexError
  | attributeError
  | unboundLocal (name : String)
deriving DecidableEq, Repr

/-! ## constructor_args.py -/

/-- A JSON-RPC node reply as consumed by `get_creation_tx` /
`get_creation_code`.  `statusOk` is whether the HTTP status was 200;
`result` is the JSON `result` field: `none` embeds JSON `null`, and
`some v` embeds an object whose relevant field (`hash` resp. `input`)
holds `v` (`none` again embedding `null`). -/
structure RpcResp where
  statusOk : Bool
  result : Option (Option String)
deriving DecidableEq, Repr

/-- Embeds `get_creation_tx` (constructor_args.py lines 5-19): on non-200 it
returns `None`; on 200 it evaluates `results["result"]["hash"]`, which
raises `TypeError` when the `result` field is JSON `null`. -/
def get_creation_tx (resp : RpcResp) : Except Err (Option String) :=
  if !resp.statusOk then .ok none
  else
    match resp.result with
    | none => .error .typeError
    | some h => .ok h

/-- Embeds `get_creation_code` (constructor_args.py lines 21-35): same shape
as `get_creation_tx` but reading `results["result"]["input"]`. -/
def get_creation_code (resp : RpcResp) : Except Err (Option String) :=
  if !resp.statusOk then .ok none
  else
    match resp.result with
    | none => .error .typeError
    | some c => .ok c

/-- Embeds `do_on_chain_lookup` (constructor_args.py lines 37-66).  The two
node calls are supplied as oracles: `creatorResp` is the node's reply to
`ots_getContractCreator(address)` and `txRespOf t` its reply to
`eth_getTransactionByHash(t)`.  `Option.getD ""` unwraps an optional string
only on branches where `pyFalsy` has already established it is a non-empty
`some`. -/
def do_on_chain_lookup (explorer : String) (rpc_url : Option String) (address : String)
    (creation_tx_hash : Option String) (bytecode : Option String)
    (creatorResp : RpcResp) (txRespOf : String → RpcResp) : Except Err String :=
  if pyFalsy rpc_url then .error (.http 404 ("no rpc configured for explorer " ++ explorer))
  else if pyFalsy bytecode then
    .error (.http 400 ("no bytecode provided for address " ++ address))
  else
    match (if pyFalsy creation_tx_hash then get_creation_tx creatorResp
           else .ok creation_tx_hash) with
    | .error e => .error e
    | .ok h =>
      if pyFalsy h then .error (.http 404 ("creation tx not found for address " ++ address))
      else
        let t := h.getD ""
        match get_creation_code (txRespOf t) with
        | .error e => .error e
        | .ok c =>
          if pyFalsy c then .error (.http 404 ("creation code not found for tx " ++ t))
          else
            let creation_code := c.getD ""
            let b := bytecode.getD ""
            let length : Int := (creation_code.length : Int) - (b.length : Int)
            if length > 0 then .ok (pySliceLast creation_code length.toNat) else .ok ""

/-! ## app.py: keys, caches, fetch pipeline -/

/-- Argument key of `weak_cache` (the `ttl_cache` is keyed by the decorated
function's arguments `(explorer, module, action, address)`). -/
structure WKey where
  explorer : String
  module : String
  action : String
  address : String
deriving DecidableEq, Repr

/-- Durable-cache key.  `diskcache`'s `memoize` prefixes the argument tuple
with the decorated function's full name, so keys are 5-tuples
`(fname, explorer, module, action, address)`; `invalidate` indexes them as
`key[1]` (explorer) and `key[4]` (address). -/
structure CacheKey where
  fname : String
  explorer : String
  module : String
  action : String
  address : String
deriving DecidableEq, Repr

/-- The durable-cache key that `cache.memoize()` builds for a
`get_from_upstream(explorer, module, action, address)` call. -/
def ckOf (w : WKey) : CacheKey :=
  ⟨"app.get_from_upstream", w.explorer, w.module, w.action, w.address⟩

/-- Read-only environment: configuration and the network, supplied as
oracles.  `upstream w` is the explorer API reply for the query `w`
(`Except.error c` embedding a non-2xx HTTP status `c`); `checksum` embeds
`eth_utils.to_checksum_address` (`none` embedding `ValueError`);
`creatorRespOf` and `txRespOf` are the JSON-RPC node oracles. -/
structure Env where
  explorers : List String
  keysOf : String → List String
  chains : String → Option Nat
  rpcUrls : Nat → Option (Option String)
  checksum : String → Option String
  upstream : WKey → Except Nat Response
  creatorRespOf : String → RpcResp
  txRespOf : String → RpcResp
  now : Nat

/-- Mutable process state: the diskcache durable store, the `ttl_cache`
transient store (each entry paired with its absolute expiry time), the
per-explorer `itertools.cycle` cursors, the log of network fetches actually
issued (for counting fetcher invocations), and the number of durable-cache
writes performed. -/
structure St where
  durable : List (CacheKey × Response)
  transient : List (WKey × (Nat × Response))
  cursors : String → Nat
  fetchLog : List WKey
  durableWrites : Nat

/-- The empty initial state. -/
def initSt : St := ⟨[], [], fun _ => 0, [], 0⟩

/-- Transient-cache read at time `now`: an entry is visible only until its
expiry (cachetools treats expired entries as misses). -/
def lookupT (l : List (WKey × (Nat × Response))) (w : WKey) (now : Nat) : Option Response :=
  match alookup l w with
  | some (exp, r) => if now < exp then some r else none
  | none => none

/-- One step of `itertools.cycle` over a key list, as a cursor: return the
element at the cursor (`none` only for an empty list, where the Python
iterator would raise `StopIteration` at creation) and advance by one. -/
def cycleNext (ks : List String) (i : Nat) : Option String × Nat :=
  (ks.get? (i % ks.length), i + 1)

/-- Outputs of `n` successive `next()` calls on a `cycle` iterator whose
cursor starts at `c`. -/
def runRotator (ks : List String) (c : Nat) : Nat → List (Option String)
  | 0 => []
  | n + 1 =>
    let step := cycleNext ks c
    step.1 :: runRotator ks step.2 n

/-- State change performed by issuing the network call inside `weak_cache`:
the explorer's key cursor advances by one (`next(keys[explorer])`) and the
fetch is logged. -/
def bumpSt (w : WKey) (s : St) : St :=
  { s with
    cursors := fun e => if e = w.explorer then s.cursors e + 1 else s.cursors e,
    fetchLog := s.fetchLog ++ [w] }

/-- State change performed by `ttl_cache` storing a successful response with
a one-hour TTL. -/
def storeT (env : Env) (w : WKey) (r : Response) (s : St) : St :=
  { s with transient := ainsert s.transient w (env.now + 3600, r) }

/-- Embeds `weak_cache` (app.py lines 51-65): on a live transient-cache hit
return the cached response; on a miss rotate the explorer's API key, issue
the network call, raise `UpstreamError` on non-2xx
(`resp.raise_for_status()`), and otherwise store the parsed JSON in the
transient cache with a one-hour TTL before returning it.  `ttl_cache` does
not cache raising calls. -/
def weak_cache (env : Env) (w : WKey) (s : St) : Except Err Response × St :=
  match lookupT s.transient w env.now with
  | some r => (.ok r, s)
  | none =>
    match env.upstream w with
    | .error code => (.error (.upstreamError code), bumpSt w s)
    | .ok r => (.ok r, storeT env w r (bumpSt w s))

/-- Embeds the verification predicate inside `get_from_upstream` (app.py
lines 72-78): for `getsourcecode`, `bool(resp["result"][0].get("SourceCode"))`
(indexing a missing or string-shaped result raises); for `getabi`,
`not resp["result"] == 'Contract source code not verified'`; any other
action raises `NotImplementedError(action)`. -/
def is_verified (action : String) (resp : Response) : Except Err Bool :=
  if action = "getsourcecode" then
    match resp.result with
    | .rlist (e :: _) => .ok (pyTruthy e.sourceCode)
    | .rlist [] => .error .indexError
    | .rstr s => if s = "" then .error .indexError else .error .attributeError
  else if action = "getabi" then
    .ok (decide (resp.result ≠ ResVal.rstr "Contract source code not verified"))
  else .error (.notImplemented action)

/-- State change performed by `cache.memoize()` persisting a returned
response into the durable store. -/
def persistD (w : WKey) (r : Response) (s : St) : St :=
  { s with
    durable := ainsert s.durable (ckOf w) r,
    durableWrites := s.durableWrites + 1 }

/-- Embeds `get_from_upstream` (app.py lines 68-81) as run under its
stampede lock, sequentially: `cache.memoize()` first checks the durable
store; on a miss it runs the body — fetch via `weak_cache`, evaluate the
verification predicate, raise `ContractNotVerified` on an unverified
response — and persists the returned value only when the body returns
normally (memoize does not cache raising calls). -/
def get_from_upstream (env : Env) (w : WKey) (s : St) : Except Err Response × St :=
  match alookup s.durable (ckOf w) with
  | some r => (.ok r, s)
  | none =>
    match weak_cache env w s with
    | (.error e, s1) => (.error e, s1)
    | (.ok resp, s1) =>
      match is_verified w.action resp with
      | .error e => (.error e, s1)
      | .ok true => (.ok resp, persistD w resp s1)
      | .ok false => (.error (.contractNotVerified 404 "contract source code not verified"), s1)

/-- Embeds the `cached_api` route (app.py lines 84-103): validate explorer,
module, action and address, then serve `get_from_upstream`, catching only
`ContractNotVerified` and answering it with the raw `weak_cache` response. -/
def cached_api (env : Env) (explorer module action address : String) (s : St) :
    Except Err Response × St :=
  if explorer ∉ env.explorers then (.error (.http 400 "explorer not supported"), s)
  else if module ≠ "contract" then (.error (.http 400 "module not supported"), s)
  else if action ≠ "getsourcecode" ∧ action ≠ "getabi" then
    (.error (.http 400 "action not supported"), s)
  else
    match env.checksum address with
    | none => (.error (.http 400 "invalid address"), s)
    | some addr =>
      let w : WKey := ⟨explorer, module, action, addr⟩
      match get_from_upstream env w s with
      | (.error (.contractNotVerified _ _), s1) => weak_cache env w s1
      | (res, s1) => (res, s1)

/-- Embeds the `invalidate` route (app.py lines 106-114): scan every durable
key, delete those whose `key[1]` (explorer) and `key[4]` (address) equal the
given pair, and return the number deleted.  The transient cache is not
touched. -/
def invalidate (explorer address : String) (s : St) : Nat × St :=
  let hit := fun kv : CacheKey × Response =>
    decide (kv.1.explorer = explorer ∧ kv.1.address = address)
  ((s.durable.filter hit).length,
   { s with durable := s.durable.filter (fun kv => !(hit kv)) })

/-- Result of the `constructor_args` route: the JSON object
`{"address": ..., "constructor_args": ...}`. -/
structure CtorArgsReply where
  address : String
  constructor_args : String
deriving DecidableEq, Repr

/-- Embeds lines 190-194 of app.py, the binding of the local variable
`args` from the explorer response: `.ok (some v)` means `args` was assigned
`v`; `.ok none` means the guarded block was skipped and `args` stays
unbound; `.error` embeds a raised Python error (`KeyError` for
`results[0]["ConstructorArguments"]` on a missing key, `TypeError` for
indexing into a string-shaped result). -/
def explorerArgsBinding (r : Response) : Except Err (Option String) :=
  if r.message = "OK" then
    match r.result with
    | .rlist (e :: _) =>
      match e.constructorArguments with
      | none => .error (.keyError "ConstructorArguments")
      | some v => .ok (some v)
    | .rlist [] => .ok none
    | .rstr s => if s = "" then .ok none else .error .typeError
  else .ok none

/-- Embeds the `constructor_args` route (app.py lines 128-200): checksum the
address, resolve the RPC URL from the explorer's chain (404 when the chain
has no usable URL), then either do the on-chain lookup directly
(`on_chain_lookup=True`) or query the explorer via `get_from_upstream`
(falling back to `weak_cache` on `ContractNotVerified`), bind `args` from
the response, and evaluate `if not args` — which raises
`UnboundLocalError` when the explorer response never assigned `args` —
falling back to the on-chain lookup when `args` is bound but empty. -/
def constructor_args (env : Env) (explorer address : String) (on_chain_lookup : Bool)
    (creation_tx_hash bytecode : Option String) (s : St) : Except Err CtorArgsReply × St :=
  match env.checksum address with
  | none => (.error (.http 400 "invalid address"), s)
  | some addr =>
    let rpcRes : Except Err (Option String) :=
      match env.chains explorer with
      | none => .ok none
      | some cid =>
        match env.rpcUrls cid with
        | none => .error (.http 404 ("no rpc configured for explorer " ++ explorer))
        | some none => .error (.http 404 ("no rpc configured for explorer " ++ explorer))
        | some (some u) => .ok (some u)
    match rpcRes with
    | .error e => (.error e, s)
    | .ok rpc_url =>
      if on_chain_lookup then
        match do_on_chain_lookup explorer rpc_url addr creation_tx_hash bytecode
            (env.creatorRespOf addr) env.txRespOf with
        | .error e => (.error e, s)
        | .ok args => (.ok ⟨addr, args⟩, s)
      else
        let w : WKey := ⟨explorer, "contract", "getsourcecode", addr⟩
        let fetched : Except Err Response × St :=
          match get_from_upstream env w s with
          | (.error (.contractNotVerified _ _), s1) => weak_cache env w s1
          | (res, s1) => (res, s1)
        match fetched with
        | (.error e, s1) => (.error e, s1)
        | (.ok r, s1) =>
          match explorerArgsBinding r with
          | .error e => (.error e, s1)
          | .ok none => (.error (.unboundLocal "args"), s1)
          | .ok (some a) =>
            if a = "" then
              match do_on_chain_lookup explorer rpc_url addr creation_tx_hash bytecode
                  (env.creatorRespOf addr) env.txRespOf with
              | .error e => (.error e, s1)
              | .ok args => (.ok ⟨addr, args⟩, s1)
            else (.ok ⟨addr, a⟩, s1)

/-! ## Basic lemmas -/

theorem strDrop_length (s : String) (n : Nat) : (strDrop s n).length = s.length - n := by
  cases s with
  | mk data => simp [strDrop, String.length]

theorem strTake_append_strDrop (s : String) (n : Nat) : strTake s n ++ strDrop s n = s := by
  cases s with
  | mk l =>
      show String.mk (l.take n ++ l.drop n) = String.mk l
      rw [List.take_append_drop]

@[simp] theorem bumpSt_durable (w : WKey) (s : St) : (bumpSt w s).durable = s.durable := rfl

@[simp] theorem bumpSt_transient (w : WKey) (s : St) : (bumpSt w s).transient = s.transient := rfl

@[simp] theorem bumpSt_fetchLog (w : WKey) (s : St) :
    (bumpSt w s).fetchLog = s.fetchLog ++ [w] := rfl

@[simp] theorem bumpSt_durableWrites (w : WKey) (s : St) :
    (bumpSt w s).durableWrites = s.durableWrites := rfl

@[simp] theorem storeT_durable (env : Env) (w : WKey) (r : Response) (s : St) :
    (storeT env w r s).durable = s.durable := rfl

@[simp] theorem storeT_transient (env : Env) (w : WKey) (r : Response) (s : St) :
    (storeT env w r s).transient = ainsert s.transient w (env.now + 3600, r) := rfl

@[simp] theorem storeT_fetchLog (env : Env) (w : WKey) (r : Response) (s : St) :
    (storeT env w r s).fetchLog = s.fetchLog := rfl

@[simp] theorem storeT_durableWrites (env : Env) (w : WKey) (r : Response) (s : St) :
    (storeT env w r s).durableWrites = s.durableWrites := rfl

@[simp] theorem persistD_durable (w : WKey) (r : Response) (s : St) :
    (persistD w r s).durable = ainsert s.durable (ckOf w) r := rfl

@[simp] theorem persistD_transient (w : WKey) (r : Response) (s : St) :
    (persistD w r s).transient = s.transient := rfl

@[simp] theorem persistD_fetchLog (w : WKey) (r : Response) (s : St) :
    (persistD w r s).fetchLog = s.fetchLog := rfl

@[simp] theorem persistD_durableWrites (w : WKey) (r : Response) (s : St) :
    (persistD w r s).durableWrites = s.durableWrites + 1 := rfl

theorem lookupT_storeT_self (env : Env) (w : WKey) (r : Response) (s : St) :
    lookupT (storeT env w r s).transient w env.now = some r := by
  simp [lookupT, alookup_ainsert_self]

theorem weak_cache_hit (env : Env) (w : WKey) (s : St) (r : Response)
    (h : lookupT s.transient w env.now = some r) : weak_cache env w s = (.ok r, s) := by
  unfold weak_cache
  rw [h]

theorem weak_cache_miss_ok (env : Env) (w : WKey) (s : St) (r : Response)
    (hT : lookupT s.transient w env.now = none) (hu : env.upstream w = .ok r) :
    weak_cache env w s = (.ok r, storeT env w r (bumpSt w s)) := by
  unfold weak_cache
  rw [hT, hu]

theorem weak_cache_miss_err (env : Env) (w : WKey) (s : St) (code : Nat)
    (hT : lookupT s.transient w env.now = none) (hu : env.upstream w = .error code) :
    weak_cache env w s = (.error (.upstreamError code), bumpSt w s) := by
  unfold weak_cache
  rw [hT, hu]

theorem weak_cache_cases (env : Env) (w : WKey) (s : St) :
    (∃ r, lookupT s.transient w env.now = some r ∧ weak_cache env w s = (.ok r, s))
    ∨ (∃ r, lookupT s.transient w env.now = none ∧ env.upstream w = .ok r
        ∧ weak_cache env w s = (.ok r, storeT env w r (bumpSt w s)))
    ∨ (∃ code, lookupT s.transient w env.now = none ∧ env.upstream w = .error code
        ∧ weak_cache env w s = (.error (.upstreamError code), bumpSt w s)) := by
  cases hT : lookupT s.transient w env.now with
  | some r => exact Or.inl ⟨r, rfl, weak_cache_hit env w s r hT⟩
  | none =>
      cases hu : env.upstream w with
      | ok r => exact Or.inr (Or.inl ⟨r, rfl, rfl, weak_cache_miss_ok env w s r hT hu⟩)
      | error code => exact Or.inr (Or.inr ⟨code, rfl, rfl, weak_cache_miss_err env w s code hT hu⟩)

theorem weak_cache_durable (env : Env) (w : WKey) (s : St) :
    ((weak_cache env w s).2).durable = s.durable := by
  rcases weak_cache_cases env w s with ⟨r, _, h⟩ | ⟨r, _, _, h⟩ | ⟨c, _, _, h⟩ <;> simp [h]

theorem weak_cache_stable (env : Env) (w : WKey) (s : St) (r : Response) (s1 : St)
    (h : weak_cache env w s = (.ok r, s1)) : weak_cache env w s1 = (.ok r, s1) := by
  rcases weak_cache_cases env w s with ⟨r0, hT, h0⟩ | ⟨r0, hT, hu, h0⟩ | ⟨c, hT, hu, h0⟩
  · rw [h0] at h
    obtain ⟨h1, h2⟩ := Prod.mk.injEq .. ▸ h
    cases h1; cases h2
    exact weak_cache_hit env w s r hT
  · rw [h0] at h
    obtain ⟨h1, h2⟩ := Prod.mk.injEq .. ▸ h
    cases h1; cases h2
    exact weak_cache_hit env w _ r (lookupT_storeT_self env w r (bumpSt w s))
  · rw [h0] at h
    exact absurd (congrArg Prod.fst h) (by simp)

theorem gfu_hit (env : Env) (w : WKey) (s : St) (r : Response)
    (hd : alookup s.durable (ckOf w) = some r) : get_from_upstream env w s = (.ok r, s) := by
  unfold get_from_upstream
  rw [hd]

theorem gfu_wc_err (env : Env) (w : WKey) (s s1 : St) (e : Err)
    (hd : alookup s.durable (ckOf w) = none) (hw : weak_cache env w s = (.error e, s1)) :
    get_from_upstream env w s = (.error e, s1) := by
  unfold get_from_upstream
  rw [hd, hw]

theorem gfu_verify_err (env : Env) (w : WKey) (s s1 : St) (resp : Response) (e : Err)
    (hd : alookup s.durable (ckOf w) = none) (hw : weak_cache env w s = (.ok resp, s1))
    (hv : is_verified w.action resp = .error e) :
    get_from_upstream env w s = (.error e, s1) := by
  unfold get_from_upstream
  rw [hd, hw]
  simp [hv]

theorem gfu_verified (env : Env) (w : WKey) (s s1 : St) (resp : Response)
    (hd : alookup s.durable (ckOf w) = none) (hw : weak_cache env w s = (.ok resp, s1))
    (hv : is_verified w.action resp = .ok true) :
    get_from_upstream env w s = (.ok resp, persistD w resp s1) := by
  unfold get_from_upstream
  rw [hd, hw]
  simp [hv]

theorem gfu_unverified (env : Env) (w : WKey) (s s1 : St) (resp : Response)
    (hd : alookup s.durable (ckOf w) = none) (hw : weak_cache env w s = (.ok resp, s1))
    (hv : is_verified w.action resp = .ok false) :
    get_from_upstream env w s =
      (.error (.contractNotVerified 404 "contract source code not verified"), s1) := by
  unfold get_from_upstream
  rw [hd, hw]
  simp [hv]

theorem gfu_durable_extends (env : Env) (w : WKey) (s : St) :
    ((get_from_upstream env w s).2).durable = s.durable
    ∨ ∃ resp, ((get_from_upstream env w s).2).durable = ainsert s.durable (ckOf w) resp
        ∧ is_verified w.action resp = .ok true := by
  cases hd : alookup s.durable (ckOf w) with
  | some r =>
      rw [gfu_hit env w s r hd]
      exact Or.inl rfl
  | none =>
      rcases weak_cache_cases env w s with ⟨r, hT, hw⟩ | ⟨r, hT, hu, hw⟩ | ⟨c, hT, hu, hw⟩
      · cases hv : is_verified w.action r with
        | error e =>
            rw [gfu_verify_err env w s s r e hd hw hv]
            exact Or.inl rfl
        | ok b =>
            cases b with
            | true =>
                rw [gfu_verified env w s s r hd hw hv]
                exact Or.inr ⟨r, by simp, hv⟩
            | false =>
                rw [gfu_unverified env w s s r hd hw hv]
                exact Or.inl rfl
      · cases hv : is_verified w.action r with
        | error e =>
            rw [gfu_verify_err env w s _ r e hd hw hv]
            exact Or.inl (by simp)
        | ok b =>
            cases b with
            | true =>
                rw [gfu_verified env w s _ r hd hw hv]
                exact Or.inr ⟨r, by simp, hv⟩
            | false =>
                rw [gfu_unverified env w s _ r hd hw hv]
                exact Or.inl (by simp)
      · rw [gfu_wc_err env w s _ _ hd hw]
        exact Or.inl (by simp)

/-- C1: a durable-cache entry exists only if its last write passed
verification — any entry visible after a `get_from_upstream` call either was
already there or is the key's own freshly verified response — and a lookup
whose response fails verification is answered through `cached_api`'s
unverified fallback with the raw response while the durable store still has
no entry for that key afterwards. -/
theorem C1_unverified_never_persisted :
    (∀ (env : Env) (w : WKey) (s : St) (k : CacheKey) (r' : Response),
        alookup ((get_from_upstream env w s).2).durable k = some r' →
        alookup s.durable k = some r'
        ∨ (k = ckOf w ∧ is_verified w.action r' = .ok true))
    ∧ (∀ (env : Env) (e m act a addr : String) (s : St) (resp : Response) (s1 : St),
        e ∈ env.explorers → m = "contract" → (act = "getsourcecode" ∨ act = "getabi") →
        env.checksum a = some addr →
        alookup s.durable (ckOf ⟨e, m, act, addr⟩) = none →
        weak_cache env ⟨e, m, act, addr⟩ s = (.ok resp, s1) →
        is_verified act resp = .ok false →
        cached_api env e m act a s = (.ok resp, s1)
        ∧ alookup s1.durable (ckOf ⟨e, m, act, addr⟩) = none) := by
  constructor
  · intro env w s k r' hk
    rcases gfu_durable_extends env w s with hsame | ⟨resp, heq, hv⟩
    · rw [hsame] at hk
      exact Or.inl hk
    · rw [heq] at hk
      by_cases hkc : k = ckOf w
      · subst hkc
        rw [alookup_ainsert_self] at hk
        injection hk with hk
        subst hk
        exact Or.inr ⟨rfl, hv⟩
      · rw [alookup_ainsert_ne _ _ _ _ (fun hh => hkc hh.symm)] at hk
        exact Or.inl hk
  · intro env e m act a addr s resp s1 he hm hact hchk hd hw hv
    have hdur : s1.durable = s.durable := by
      have h := weak_cache_durable env ⟨e, m, act, addr⟩ s
      rw [hw] at h
      exact h
    refine ⟨?_, by rw [hdur]; exact hd⟩
    unfold cached_api
    rw [if_neg (fun hcon => hcon he), if_neg (fun hcon => hcon hm),
      if_neg (fun hcon => hact.elim hcon.1 hcon.2)]
    simp only [hchk, gfu_unverified env ⟨e, m, act, addr⟩ s s1 resp hd hw hv]
    exact weak_cache_stable env ⟨e, m, act, addr⟩ s resp s1 hw

/-- C5: on a durable-cache hit `get_from_upstream` returns the stored
payload immediately with the state untouched (so the fetcher is not
invoked), and after a verified lookup a repeated lookup for the same key
returns the identical payload again without changing the state. -/
theorem C5_lookup_coalescing :
    (∀ (env : Env) (w : WKey) (s : St) (r : Response),
        alookup s.durable (ckOf w) = some r →
        get_from_upstream env w s = (.ok r, s))
    ∧ (∀ (env : Env) (w : WKey) (s : St) (resp : Response) (s1 : St),
        alookup s.durable (ckOf w) = none →
        weak_cache env w s = (.ok resp, s1) →
        is_verified w.action resp = .ok true →
        (get_from_upstream env w s).1 = .ok resp
        ∧ get_from_upstream env w ((get_from_upstream env w s).2) =
            (.ok resp, (get_from_upstream env w s).2)) := by
  constructor
  · exact fun env w s r hd => gfu_hit env w s r hd
  · intro env w s resp s1 hd hw hv
    have h1 := gfu_verified env w s s1 resp hd hw hv
    rw [h1]
    exact ⟨rfl, gfu_hit env w _ resp (by simp [alookup_ainsert_self])⟩

/-- C3: with the preconditions met and the node supplying creation code
`cc` for the resolved transaction, the on-chain resolver computes the
hex-character string-length difference and returns exactly the trailing
`len cc - len b` characters of `cc` when that difference is positive, and
the empty string (without raising) otherwise. -/
theorem C3_bytecode_diff (explorer rpc address t b cc : String) (cres : RpcResp)
    (txf : String → RpcResp)
    (hrpc : rpc ≠ "") (hb : b ≠ "") (ht : t ≠ "") (hcc : cc ≠ "")
    (htx : txf t = ⟨true, some (some cc)⟩) :
    do_on_chain_lookup explorer (some rpc) address (some t) (some b) cres txf =
      .ok (if b.length < cc.length then strDrop cc b.length else "")
    ∧ (b.length < cc.length →
        (strDrop cc b.length).length = cc.length - b.length
        ∧ strTake cc b.length ++ strDrop cc b.length = cc) := by
  constructor
  · unfold do_on_chain_lookup
    have h1 : pyFalsy (some rpc) = false := by simp [pyFalsy, hrpc]
    have h2 : pyFalsy (some b) = false := by simp [pyFalsy, hb]
    have h3 : pyFalsy (some t) = false := by simp [pyFalsy, ht]
    have h4 : pyFalsy (some cc) = false := by simp [pyFalsy, hcc]
    simp only [h1, h2, h3, h4, htx, get_creation_code, Option.getD, Bool.false_eq_true,
      if_false, ite_false, Bool.not_true]
    by_cases hlen : b.length < cc.length
    · rw [if_pos (by omega : ((cc.length : Int) - (b.length : Int)) > 0), if_pos hlen]
      unfold pySliceLast
      have harg : cc.length - ((cc.length : Int) - (b.length : Int)).toNat = b.length := by
        omega
      rw [harg]
    · rw [if_neg (by omega : ¬ ((cc.length : Int) - (b.length : Int)) > 0), if_neg hlen]
  · intro hlen
    exact ⟨strDrop_length cc b.length, strTake_append_strDrop cc b.length⟩

/-- C3 witness: the spec's two concrete bytecode-diff examples, obtained by
applying `C3_bytecode_diff`. -/
theorem C3_bytecode_diff_witness :
    do_on_chain_lookup "etherscan" (some "http://node") "0xAb" (some "0xt1") (some "aabbcc")
      ⟨true, none⟩ (fun _ => ⟨true, some (some "aabbccddeeff")⟩) = .ok "ddeeff"
    ∧ do_on_chain_lookup "etherscan" (some "http://node") "0xAb" (some "0xt1")
      (some "aabbccdd") ⟨true, none⟩ (fun _ => ⟨true, some (some "aabbcc")⟩) = .ok "" := by
  constructor
  · have h := (C3_bytecode_diff "etherscan" "http://node" "0xAb" "0xt1" "aabbcc" "aabbccddeeff"
      ⟨true, none⟩ (fun _ => ⟨true, some (some "aabbccddeeff")⟩)
      (by decide) (by decide) (by decide) (by decide) rfl).1
    rw [h]
    rfl
  · have h := (C3_bytecode_diff "etherscan" "http://node" "0xAb" "0xt1" "aabbccdd" "aabbcc"
      ⟨true, none⟩ (fun _ => ⟨true, some (some "aabbcc")⟩)
      (by decide) (by decide) (by decide) (by decide) rfl).1
    rw [h]
    rfl

/-- C4: the verification predicate is — for `getsourcecode` — true exactly
when the first result entry carries a non-empty source-code field, for
`getabi` true exactly when the result is not the not-verified sentinel
string, and for any other action `get_from_upstream` fails with
`NotImplementedError(action)` (after its single fetch, with nothing
persisted and no retry). -/
theorem C4_verification_predicate :
    (∀ resp : Response, is_verified "getsourcecode" resp = .ok true ↔
        ∃ en rest src, resp.result = .rlist (en :: rest)
          ∧ en.sourceCode = some src ∧ src ≠ "")
    ∧ (∀ resp : Response, is_verified "getabi" resp = .ok true ↔
        resp.result ≠ .rstr "Contract source code not verified")
    ∧ (∀ (env : Env) (w : WKey) (s : St) (resp : Response) (s1 : St),
        w.action ≠ "getsourcecode" → w.action ≠ "getabi" →
        alookup s.durable (ckOf w) = none →
        weak_cache env w s = (.ok resp, s1) →
        get_from_upstream env w s = (.error (.notImplemented w.action), s1)) := by
  refine ⟨?_, ?_, ?_⟩
  · intro resp
    cases hres : resp.result with
    | rstr sres =>
        by_cases hs : sres = "" <;> simp [is_verified, hres, hs]
    | rlist l =>
        cases l with
        | nil => simp [is_verified, hres]
        | cons en rest =>
            cases hsc : en.sourceCode with
            | none => simp [is_verified, hres, hsc, pyTruthy, pyFalsy]
            | some src =>
                by_cases hs : src = "" <;>
                  simp [is_verified, hres, hsc, pyTruthy, pyFalsy, hs]
  · intro resp
    simp [is_verified]
  · intro env w s resp s1 h1 h2 hd hw
    have hv : is_verified w.action resp = .error (.notImplemented w.action) := by
      unfold is_verified
      rw [if_neg h1, if_neg h2]
    exact gfu_verify_err env w s s1 resp _ hd hw hv

/-! ## Concrete instantiation data used by witnesses -/

/-- A verified explorer response: non-empty source code. -/
def respVerified : Response := ⟨"1", "OK", .rlist [⟨some "contract Foo", some "00aa"⟩]⟩

/-- An unverified explorer response: empty source-code field. -/
def respUnverified : Response := ⟨"1", "OK", .rlist [⟨some "", some ""⟩]⟩

/-- The single query key used by the witnesses. -/
def wkey0 : WKey := ⟨"etherscan", "contract", "getsourcecode", "0xAb"⟩

/-- A witness environment whose upstream always answers with the given
response and whose checksummer maps the lowercase form "0xab" to "0xAb". -/
def envWith (r : Response) : Env :=
  { explorers := ["etherscan"]
    keysOf := fun _ => ["k1", "k2", "k3"]
    chains := fun _ => none
    rpcUrls := fun _ => none
    checksum := fun a => if a = "0xab" then some "0xAb" else none
    upstream := fun _ => .ok r
    creatorRespOf := fun _ => ⟨true, some (some "0xt1")⟩
    txRespOf := fun _ => ⟨true, some (some "aabbccddeeff")⟩
    now := 0 }

/-- State after the witness environment's first fetch of an unverified
response. -/
def stAfterUnv : St := (weak_cache (envWith respUnverified) wkey0 initSt).2

/-- State after the witness environment's first fetch of a verified
response. -/
def stAfterVer : St := (weak_cache (envWith respVerified) wkey0 initSt).2

/-- C1 witness: at a concrete unverified response, `cached_api` serves the
raw payload and the durable store still has no entry for the key. -/
theorem C1_unverified_never_persisted_witness :
    is_verified "getsourcecode" respUnverified = .ok false
    ∧ cached_api (envWith respUnverified) "etherscan" "contract" "getsourcecode" "0xab" initSt
        = (.ok respUnverified, stAfterUnv)
    ∧ alookup stAfterUnv.durable (ckOf wkey0) = none := by
  have h := C1_unverified_never_persisted.2 (envWith respUnverified) "etherscan" "contract"
    "getsourcecode" "0xab" "0xAb" initSt respUnverified stAfterUnv
    (by decide) rfl (Or.inl rfl) (by decide) rfl rfl rfl
  exact ⟨rfl, h.1, h.2⟩

/-- C4 witness: the three branches of the verification predicate at
concrete inputs, via `C4_verification_predicate`. -/
theorem C4_verification_predicate_witness :
    is_verified "getsourcecode" respVerified = .ok true
    ∧ is_verified "getabi" ⟨"1", "OK", .rstr "Contract source code not verified"⟩ ≠ .ok true
    ∧ get_from_upstream (envWith respVerified)
        ⟨"etherscan", "account", "getbalance", "0xAb"⟩ initSt
        = (.error (.notImplemented "getbalance"),
           (weak_cache (envWith respVerified) ⟨"etherscan", "account", "getbalance", "0xAb"⟩
             initSt).2) := by
  refine ⟨?_, ?_, ?_⟩
  · exact (C4_verification_predicate.1 respVerified).mpr
      ⟨⟨some "contract Foo", some "00aa"⟩, [], "contract Foo", rfl, rfl, by decide⟩
  · intro hcon
    exact (C4_verification_predicate.2.1 _).mp hcon rfl
  · exact C4_verification_predicate.2.2 (envWith respVerified)
      ⟨"etherscan", "account", "getbalance", "0xAb"⟩ initSt respVerified _
      (by decide) (by decide) rfl rfl

/-- C5 witness: first verified lookup then a repeated lookup at a concrete
input, and a pure durable-cache hit, via `C5_lookup_coalescing`. -/
theorem C5_lookup_coalescing_witness :
    (get_from_upstream (envWith respVerified) wkey0 initSt).1 = .ok respVerified
    ∧ get_from_upstream (envWith respVerified) wkey0
        ((get_from_upstream (envWith respVerified) wkey0 initSt).2) =
        (.ok respVerified, (get_from_upstream (envWith respVerified) wkey0 initSt).2)
    ∧ get_from_upstream (envWith respVerified) wkey0
        { initSt with durable := [(ckOf wkey0, respVerified)] } =
        (.ok respVerified, { initSt with durable := [(ckOf wkey0, respVerified)] }) := by
  have h := C5_lookup_coalescing.2 (envWith respVerified) wkey0 initSt respVerified stAfterVer
    rfl rfl rfl
  exact ⟨h.1, h.2,
    C5_lookup_coalescing.1 (envWith respVerified) wkey0
      { initSt with durable := [(ckOf wkey0, respVerified)] } respVerified (by decide)⟩

/-! ## Invalidation and key rotation -/

theorem alookup_filter_keypred {β : Type} (p : CacheKey → Bool) (l : List (CacheKey × β))
    (k : CacheKey) :
    alookup (l.filter (fun kv => !(p kv.1))) k = if p k then none else alookup l k := by
  induction l with
  | nil =>
      cases hp : p k <;> simp [alookup, hp]
  | cons kv rest ih =>
      obtain ⟨k', v⟩ := kv
      by_cases hk : k' = k
      · subst hk
        cases hp : p k' <;> simp [alookup, List.filter, hp, ih]
      · cases hp : p k' <;> simp [alookup, List.filter, hp, hk, ih]

theorem length_filter_partition {α : Type} (p : α → Bool) (l : List α) :
    (l.filter p).length + (l.filter (fun x => !(p x))).length = l.length := by
  induction l with
  | nil => rfl
  | cons x rest ih =>
      cases hp : p x <;> simp [List.filter, hp] <;> omega

/-- C8: `invalidate` leaves the transient cache (and every other state
component except the durable store) untouched, removes exactly the durable
entries whose explorer and address components equal the given pair —
irrespective of module and action — and reports as deleted exactly the
number of matching entries. -/
theorem C8_invalidate_frame (e a : String) (s : St) :
    ((invalidate e a s).2).transient = s.transient
    ∧ ((invalidate e a s).2).cursors = s.cursors
    ∧ ((invalidate e a s).2).fetchLog = s.fetchLog
    ∧ (∀ k : CacheKey, alookup ((invalidate e a s).2).durable k =
        (if k.explorer = e ∧ k.address = a then none else alookup s.durable k))
    ∧ (invalidate e a s).1 + ((invalidate e a s).2).durable.length = s.durable.length
    ∧ (invalidate e a s).1 =
        s.durable.countP (fun kv => decide (kv.1.explorer = e ∧ kv.1.address = a)) := by
  refine ⟨rfl, rfl, rfl, ?_, ?_, ?_⟩
  · intro k
    have h := alookup_filter_keypred
      (fun k0 => decide (k0.explorer = e ∧ k0.address = a)) s.durable k
    simpa [invalidate] using h
  · exact length_filter_partition
      (fun kv : CacheKey × Response => decide (kv.1.explorer = e ∧ kv.1.address = a)) s.durable
  · simp [invalidate, List.countP_eq_length_filter]

theorem runRotator_eq (ks : List String) (c n : Nat) :
    runRotator ks c n = (List.range n).map (fun i => ks.get? ((c + i) % ks.length)) := by
  induction n generalizing c with
  | zero => rfl
  | succ n ih =>
      rw [List.range_succ_eq_map, List.map_cons, List.map_map]
      show ks.get? (c % ks.length) :: runRotator ks (c + 1) n = _
      rw [ih (c + 1)]
      have hc : c + 0 = c := rfl
      rw [hc]
      have hf : ((fun i => ks.get? ((c + i) % ks.length)) ∘ Nat.succ)
          = fun i => ks.get? ((c + 1 + i) % ks.length) := by
        funext i
        show ks.get? ((c + (i + 1)) % ks.length) = ks.get? ((c + 1 + i) % ks.length)
        have hadd : c + (i + 1) = c + 1 + i := by omega
        rw [hadd]
      rw [hf]

/-- C9: starting from a fresh cursor, the sequence of rotator outputs is the
key list read cyclically — the m-th sequential call returns the key at index
(m-1) mod the list length — and on a non-empty key list every call yields a
key (the rotation wraps forever instead of running out). -/
theorem C9_key_rotation (ks : List String) (n : Nat) :
    runRotator ks 0 n = (List.range n).map (fun i => ks.get? (i % ks.length))
    ∧ (∀ m : Nat, 1 ≤ m → m ≤ n →
        (runRotator ks 0 n).get? (m - 1) = some (ks.get? ((m - 1) % ks.length)))
    ∧ (ks ≠ [] → ∀ i : Nat, (ks.get? (i % ks.length)).isSome = true) := by
  have h0 : runRotator ks 0 n = (List.range n).map (fun i => ks.get? (i % ks.length)) := by
    have h := runRotator_eq ks 0 n
    simpa using h
  refine ⟨h0, ?_, ?_⟩
  · intro m h1 h2
    rw [h0, List.get?_map, List.get?_range (by omega : m - 1 < n)]
    rfl
  · intro hne i
    have hlen : 0 < ks.length := List.length_pos.mpr hne
    have hlt : i % ks.length < ks.length := Nat.mod_lt _ hlen
    rw [List.get?_eq_get hlt]
    rfl

/-- C9 witness: the spec's example — keys [k1,k2,k3], five sequential calls
yield k1,k2,k3,k1,k2 — via `C9_key_rotation`. -/
theorem C9_key_rotation_witness :
    runRotator ["k1", "k2", "k3"] 0 5 =
      [some "k1", some "k2", some "k3", some "k1", some "k2"]
    ∧ (1 ≤ 5 ∧ (runRotator ["k1", "k2", "k3"] 0 5).get? 4 = some (some "k2")) := by
  have h := C9_key_rotation ["k1", "k2", "k3"] 5
  refine ⟨by rw [h.1]; rfl, by omega, ?_⟩
  have h5 := h.2.1 5 (by omega) (by omega)
  simpa using h5

/-! ## Failing-input evaluations and the invalidation/checksum mismatch -/

/-- An explorer failure response: message is not "OK" (result populated the
way a verified reply would be, so the crash below is reached independently
of the verification predicate). -/
def respNotOk : Response := ⟨"0", "NOTOK", .rlist [⟨some "contract Foo", some "00aa"⟩]⟩

/-- An explorer response whose result list is empty. -/
def respEmptyList : Response := ⟨"1", "OK", .rlist []⟩

/-- C6 (code-bug evidence): on an explorer reply whose message is not "OK"
the constructor-args endpoint raises `UnboundLocalError` on `args` instead
of falling back to on-chain derivation, and on an empty result list it
raises `IndexError` inside the verification predicate — both server-side
crashes, where the claim promises a graceful fallback. -/
theorem C6_explorer_failure_crash :
    (constructor_args (envWith respNotOk) "etherscan" "0xab" false none none initSt).1
      = .error (.unboundLocal "args")
    ∧ (constructor_args (envWith respEmptyList) "etherscan" "0xab" false none none initSt).1
      = .error .indexError := by
  constructor <;> rfl

/-- C7 (code-bug evidence): when the node answers the contract-creator
lookup with HTTP 200 and a JSON-null `result` — the shape a node reports
when it cannot resolve the creation transaction — `do_on_chain_lookup`
raises `TypeError` (from `results["result"]["hash"]`) instead of the
claimed `NotFound` 404. -/
theorem C7_null_creator_result_crash :
    do_on_chain_lookup "etherscan" (some "http://node") "0xAb" none (some "aabb")
      ⟨true, none⟩ (fun _ => ⟨true, some (some "aabbcc")⟩) = .error .typeError := by
  rfl

/-- C10: `cached_api` stores durable entries under the checksummed address,
while `invalidate` compares the caller-supplied address string verbatim; so
when the supplied form differs from the checksummed form, invalidation with
the raw form deletes nothing, returns 0, and the durable entry survives. -/
theorem C10_invalidate_raw_address_misses (env : Env) (e m act a addr : String)
    (resp : Response)
    (he : e ∈ env.explorers) (hm : m = "contract")
    (hact : act = "getsourcecode" ∨ act = "getabi")
    (hchk : env.checksum a = some addr) (hne : addr ≠ a)
    (hu : env.upstream ⟨e, m, act, addr⟩ = .ok resp)
    (hv : is_verified act resp = .ok true) :
    alookup ((cached_api env e m act a initSt).2).durable (ckOf ⟨e, m, act, addr⟩) = some resp
    ∧ (invalidate e a ((cached_api env e m act a initSt).2)).1 = 0
    ∧ ((invalidate e a ((cached_api env e m act a initSt).2)).2).durable
        = ((cached_api env e m act a initSt).2).durable := by
  have hwc : weak_cache env ⟨e, m, act, addr⟩ initSt =
      (.ok resp, storeT env ⟨e, m, act, addr⟩ resp (bumpSt ⟨e, m, act, addr⟩ initSt)) :=
    weak_cache_miss_ok env ⟨e, m, act, addr⟩ initSt resp rfl hu
  have hg := gfu_verified env ⟨e, m, act, addr⟩ initSt _ resp rfl hwc hv
  have hca : cached_api env e m act a initSt =
      (.ok resp, persistD ⟨e, m, act, addr⟩ resp
        (storeT env ⟨e, m, act, addr⟩ resp (bumpSt ⟨e, m, act, addr⟩ initSt))) := by
    unfold cached_api
    rw [if_neg (fun hcon => hcon he), if_neg (fun hcon => hcon hm),
      if_neg (fun hcon => hact.elim hcon.1 hcon.2)]
    simp only [hchk, hg]
  rw [hca]
  refine ⟨by simp [initSt, alookup_ainsert_self], ?_, ?_⟩ <;>
    simp [invalidate, persistD, initSt, ainsert, ckOf, List.filter, hne]

/-- C10 witness: concrete lowercase query address "0xab" whose checksummed
form "0xAb" differs, via `C10_invalidate_raw_address_misses`. -/
theorem C10_invalidate_raw_address_misses_witness :
    alookup ((cached_api (envWith respVerified) "etherscan" "contract" "getsourcecode"
        "0xab" initSt).2).durable (ckOf wkey0) = some respVerified
    ∧ (invalidate "etherscan" "0xab" ((cached_api (envWith respVerified) "etherscan"
        "contract" "getsourcecode" "0xab" initSt).2)).1 = 0
    ∧ ((invalidate "etherscan" "0xab" ((cached_api (envWith respVerified) "etherscan"
        "contract" "getsourcecode" "0xab" initSt).2)).2).durable
        = ((cached_api (envWith respVerified) "etherscan" "contract" "getsourcecode"
        "0xab" initSt).2).durable := by
  exact C10_invalidate_raw_address_misses (envWith respVerified) "etherscan" "contract"
    "getsourcecode" "0xab" "0xAb" respVerified (by decide) rfl (Or.inl rfl) (by decide)
    (by decide) rfl rfl

/-! ## C2: the stampede guard as a small-step interleaving machine

The `stampede` decorator (app.py lines 39-48) wraps the memoized
`get_from_upstream` in `with locks[key]: return f(...)`, so for one key the
locked body is exactly the durable-check → `weak_cache` → verify → persist
sequence embedded above.  The machine below runs N request threads for the
same key; each thread's critical section decomposes the locked body into
the same three shared-state accesses the sequential embedding performs, and
only the lock holder may take critical-section steps. -/

/-- List-index helpers used by the machine proofs. -/
theorem lget_some_lt {α : Type} (l : List α) (i : Nat) (a : α)
    (h : l.get? i = some a) : i < l.length := by
  induction l generalizing i with
  | nil => exact absurd h (by simp)
  | cons x rest ih =>
      cases i with
      | zero => simp
      | succ i' => exact Nat.succ_lt_succ (ih i' h)

theorem lget_lt_some {α : Type} (l : List α) (i : Nat) (h : i < l.length) :
    ∃ a, l.get? i = some a := by
  induction l generalizing i with
  | nil => simp at h
  | cons x rest ih =>
      cases i with
      | zero => exact ⟨x, rfl⟩
      | succ i' => exact ih i' (Nat.lt_of_succ_lt_succ h)

theorem lget_set_self {α : Type} (l : List α) (i : Nat) (a : α) (h : i < l.length) :
    (l.set i a).get? i = some a := by
  induction l generalizing i with
  | nil => simp at h
  | cons x rest ih =>
      cases i with
      | zero => rfl
      | succ i' =>
          show (rest.set i' a).get? i' = some a
          exact ih i' (Nat.lt_of_succ_lt_succ h)

theorem lget_set_ne {α : Type} (l : List α) (i j : Nat) (a : α) (h : i ≠ j) :
    (l.set i a).get? j = l.get? j := by
  induction l generalizing i j with
  | nil => simp
  | cons x rest ih =>
      cases i with
      | zero =>
          cases j with
          | zero => exact absurd rfl h
          | succ j' => rfl
      | succ i' =>
          cases j with
          | zero => rfl
          | succ j' =>
              show (rest.set i' a).get? j' = rest.get? j'
              exact ih i' j' (fun hh => h (by rw [hh]))

theorem lget_set_cases {α : Type} (l : List α) (i j : Nat) (a pc : α)
    (h : (l.set i a).get? j = some pc) :
    (j = i ∧ pc = a) ∨ (j ≠ i ∧ l.get? j = some pc) := by
  by_cases hij : j = i
  · subst hij
    have hlt : j < l.length := by
      have := lget_some_lt _ _ _ h
      simpa using this
    rw [lget_set_self l j a hlt] at h
    injection h with h
    exact Or.inl ⟨rfl, h.symm⟩
  · rw [lget_set_ne l i j a (fun hh => hij hh.symm)] at h
    exact Or.inr ⟨hij, h⟩

theorem lget_replicate {α : Type} (n i : Nat) (x a : α)
    (h : (List.replicate n x).get? i = some a) : a = x := by
  induction n generalizing i with
  | zero => exact absurd h (by simp)
  | succ n ih =>
      cases i with
      | zero =>
          injection h with h
          exact h.symm
      | succ i' => exact ih i' h

/-- Program counter of one request thread running the locked
`get_from_upstream` body for the shared key. -/
inductive TPC where
  | start
  | cs0
  | cs1
  | cs2 (r : Response)
  | finish (res : Except Err Response)
  | done (res : Except Err Response)

/-- Whether the thread currently holds the per-key lock: everything between
a successful `acquire` and the `release` of the `with` statement. -/
def inCS : TPC → Bool
  | .start => false
  | .done _ => false
  | _ => true

/-- A machine configuration: per-thread program counters, the per-key lock
(`locks[key]`, holding the index of the owning thread), and the shared
process state. -/
structure MCfg where
  threads : List TPC
  lock : Option Nat
  st : St

/-- One interleaving step of the machine.  `acquire` blocks while the lock
is held; the three critical-section stages mirror `get_from_upstream`'s
body (durable check, `weak_cache`, verify-and-persist); `release` models
the `with` statement's unconditional unlock and fires for every result,
error results included. -/
inductive MStep (env : Env) (w : WKey) : MCfg → MCfg → Prop where
  | acquire (c : MCfg) (i : Nat)
      (h : c.threads.get? i = some .start) (hl : c.lock = none) :
      MStep env w c ⟨c.threads.set i .cs0, some i, c.st⟩
  | cs0Hit (c : MCfg) (i : Nat) (r : Response)
      (h : c.threads.get? i = some .cs0) (hl : c.lock = some i)
      (hd : alookup c.st.durable (ckOf w) = some r) :
      MStep env w c ⟨c.threads.set i (.finish (.ok r)), c.lock, c.st⟩
  | cs0Miss (c : MCfg) (i : Nat)
      (h : c.threads.get? i = some .cs0) (hl : c.lock = some i)
      (hd : alookup c.st.durable (ckOf w) = none) :
      MStep env w c ⟨c.threads.set i .cs1, c.lock, c.st⟩
  | cs1Ok (c : MCfg) (i : Nat) (r : Response) (s' : St)
      (h : c.threads.get? i = some .cs1) (hl : c.lock = some i)
      (hw : weak_cache env w c.st = (.ok r, s')) :
      MStep env w c ⟨c.threads.set i (.cs2 r), c.lock, s'⟩
  | cs1Err (c : MCfg) (i : Nat) (e : Err) (s' : St)
      (h : c.threads.get? i = some .cs1) (hl : c.lock = some i)
      (hw : weak_cache env w c.st = (.error e, s')) :
      MStep env w c ⟨c.threads.set i (.finish (.error e)), c.lock, s'⟩
  | cs2Ver (c : MCfg) (i : Nat) (r : Response)
      (h : c.threads.get? i = some (.cs2 r)) (hl : c.lock = some i)
      (hv : is_verified w.action r = .ok true) :
      MStep env w c ⟨c.threads.set i (.finish (.ok r)), c.lock, persistD w r c.st⟩
  | cs2Unver (c : MCfg) (i : Nat) (r : Response)
      (h : c.threads.get? i = some (.cs2 r)) (hl : c.lock = some i)
      (hv : is_verified w.action r = .ok false) :
      MStep env w c
        ⟨c.threads.set i
          (.finish (.error (.contractNotVerified 404 "contract source code not verified"))),
         c.lock, c.st⟩
  | cs2Err (c : MCfg) (i : Nat) (r : Response) (e : Err)
      (h : c.threads.get? i = some (.cs2 r)) (hl : c.lock = some i)
      (hv : is_verified w.action r = .error e) :
      MStep env w c ⟨c.threads.set i (.finish (.error e)), c.lock, c.st⟩
  | release (c : MCfg) (i : Nat) (res : Except Err Response)
      (h : c.threads.get? i = some (.finish res)) (hl : c.lock = some i) :
      MStep env w c ⟨c.threads.set i (.done res), none, c.st⟩

/-- Reflexive-transitive closure of `MStep` from a fixed start. -/
inductive Reach (env : Env) (w : WKey) (c0 : MCfg) : MCfg → Prop where
  | refl : Reach env w c0 c0
  | tail {b c : MCfg} : Reach env w c0 b → MStep env w b c → Reach env w c0 c

/-- Initial configuration: `n` fresh request threads, lock free, empty
caches. -/
def initCfg (n : Nat) : MCfg := ⟨List.replicate n .start, none, initSt⟩

/-- Mutual exclusion: at most one thread is inside the critical section. -/
def MutEx (c : MCfg) : Prop :=
  ∀ i j pci pcj, c.threads.get? i = some pci → c.threads.get? j = some pcj →
    inCS pci = true → inCS pcj = true → i = j

/-- Every thread has completed its request. -/
def allDone (c : MCfg) : Prop :=
  ∀ i pc, c.threads.get? i = some pc → ∃ res, pc = TPC.done res

/-- The lock is held exactly by the unique thread inside the critical
section. -/
def LockCoherent (c : MCfg) : Prop :=
  (∀ i pc, c.threads.get? i = some pc → inCS pc = true → c.lock = some i)
  ∧ (∀ i, c.lock = some i → ∃ pc, c.threads.get? i = some pc ∧ inCS pc = true)

theorem mutex_of_lc (c : MCfg) (hlc : LockCoherent c) : MutEx c := by
  intro i j pci pcj hi hj hci hcj
  have h1 := hlc.1 i pci hi hci
  have h2 := hlc.1 j pcj hj hcj
  rw [h1] at h2
  injection h2

theorem lc_set_incs (c : MCfg) (i : Nat) (pc0 newpc : TPC) (st' : St)
    (h : c.threads.get? i = some pc0) (hl : c.lock = some i) (hnew : inCS newpc = true)
    (hlc : LockCoherent c) :
    LockCoherent ⟨c.threads.set i newpc, c.lock, st'⟩ := by
  obtain ⟨lc1, lc2⟩ := hlc
  constructor
  · intro j pc' hj hcs
    rcases lget_set_cases _ _ _ _ _ hj with ⟨he, _⟩ | ⟨_, hold⟩
    · rw [he]
      exact hl
    · exact lc1 j pc' hold hcs
  · intro k hk
    have hk' : i = k := by
      rw [hl] at hk
      injection hk
    subst hk'
    exact ⟨newpc, lget_set_self _ _ _ (lget_some_lt _ _ _ h), hnew⟩

theorem lc_step (env : Env) (w : WKey) (c c' : MCfg) (hs : MStep env w c c')
    (hlc : LockCoherent c) : LockCoherent c' := by
  cases hs with
  | acquire i h hl =>
      obtain ⟨lc1, lc2⟩ := hlc
      constructor
      · intro j pc' hj hcs
        rcases lget_set_cases _ _ _ _ _ hj with ⟨he, _⟩ | ⟨_, hold⟩
        · rw [he]
        · have := lc1 j pc' hold hcs
          rw [hl] at this
          exact absurd this (by simp)
      · intro k hk
        have hk' : i = k := by injection hk
        subst hk'
        exact ⟨.cs0, lget_set_self _ _ _ (lget_some_lt _ _ _ h), rfl⟩
  | cs0Hit i r h hl hd => exact lc_set_incs _ i _ _ _ h hl rfl hlc
  | cs0Miss i h hl hd => exact lc_set_incs _ i _ _ _ h hl rfl hlc
  | cs1Ok i r s' h hl hw => exact lc_set_incs _ i _ _ _ h hl rfl hlc
  | cs1Err i e s' h hl hw => exact lc_set_incs _ i _ _ _ h hl rfl hlc
  | cs2Ver i r h hl hv => exact lc_set_incs _ i _ _ _ h hl rfl hlc
  | cs2Unver i r h hl hv => exact lc_set_incs _ i _ _ _ h hl rfl hlc
  | cs2Err i r e h hl hv => exact lc_set_incs _ i _ _ _ h hl rfl hlc
  | release i res h hl =>
      obtain ⟨lc1, lc2⟩ := hlc
      constructor
      · intro j pc' hj hcs
        rcases lget_set_cases _ _ _ _ _ hj with ⟨_, hpc⟩ | ⟨hne, hold⟩
        · rw [hpc] at hcs
          exact absurd hcs (by simp [inCS])
        · have := lc1 j pc' hold hcs
          rw [hl] at this
          injection this with hij
          exact absurd hij.symm hne
      · intro k hk
        exact absurd hk (by simp)

theorem lc_init (n : Nat) : LockCoherent (initCfg n) := by
  constructor
  · intro i pc h hcs
    have := lget_replicate _ _ _ _ h
    subst this
    exact absurd hcs (by simp [inCS])
  · intro k hk
    exact absurd hk (by simp [initCfg])

theorem lc_reach (env : Env) (w : WKey) (n : Nat) (c : MCfg)
    (hre : Reach env w (initCfg n) c) : LockCoherent c := by
  induction hre with
  | refl => exact lc_init n
  | tail hre hstep ih => exact lc_step env w _ _ hstep ih

theorem progress_of_lc (env : Env) (w : WKey) (c : MCfg)
    (hlc : LockCoherent c) (hnd : ¬ allDone c) : ∃ c', MStep env w c c' := by
  unfold allDone at hnd
  push_neg at hnd
  obtain ⟨i, pc, hget, hpc⟩ := hnd
  cases hl : c.lock with
  | none =>
      cases pc with
      | start => exact ⟨_, MStep.acquire c i hget hl⟩
      | done res => exact absurd rfl (hpc res)
      | cs0 =>
          have := hlc.1 i _ hget rfl
          rw [hl] at this
          exact absurd this (by simp)
      | cs1 =>
          have := hlc.1 i _ hget rfl
          rw [hl] at this
          exact absurd this (by simp)
      | cs2 r =>
          have := hlc.1 i _ hget rfl
          rw [hl] at this
          exact absurd this (by simp)
      | finish res =>
          have := hlc.1 i _ hget rfl
          rw [hl] at this
          exact absurd this (by simp)
  | some k =>
      obtain ⟨pck, hgk, hcsk⟩ := hlc.2 k hl
      cases pck with
      | start => simp [inCS] at hcsk
      | done res => simp [inCS] at hcsk
      | cs0 =>
          cases hd : alookup c.st.durable (ckOf w) with
          | some r => exact ⟨_, MStep.cs0Hit c k r hgk hl hd⟩
          | none => exact ⟨_, MStep.cs0Miss c k hgk hl hd⟩
      | cs1 =>
          cases hwc : weak_cache env w c.st with
          | mk res s' =>
              cases res with
              | ok r => exact ⟨_, MStep.cs1Ok c k r s' hgk hl hwc⟩
              | error e => exact ⟨_, MStep.cs1Err c k e s' hgk hl hwc⟩
      | cs2 r =>
          cases hv : is_verified w.action r with
          | ok b =>
              cases b with
              | true => exact ⟨_, MStep.cs2Ver c k r hgk hl hv⟩
              | false => exact ⟨_, MStep.cs2Unver c k r hgk hl hv⟩
          | error e => exact ⟨_, MStep.cs2Err c k r e hgk hl hv⟩
      | finish res => exact ⟨_, MStep.release c k res hgk hl⟩

/-- Shared-state invariant for the single-key burst scenario (uncached key,
upstream response `R`): either nothing has been fetched yet (empty caches,
no durable write), or exactly one fetch has happened, the transient cache
serves `R`, and the durable store holds either nothing yet or exactly the
one verified write of `R`. -/
def SInvSt (env : Env) (w : WKey) (R : Response) (st : St) : Prop :=
  (st.fetchLog = [] ∧ lookupT st.transient w env.now = none
     ∧ alookup st.durable (ckOf w) = none ∧ st.durableWrites = 0)
  ∨ (st.fetchLog = [w] ∧ lookupT st.transient w env.now = some R
     ∧ ((alookup st.durable (ckOf w) = none ∧ st.durableWrites = 0)
        ∨ (alookup st.durable (ckOf w) = some R ∧ st.durableWrites = 1)))

/-- Per-thread obligation in the burst scenario, by program counter. -/
def Obl (w : WKey) (R : Response) (st : St) : TPC → Prop
  | .start => True
  | .cs0 => True
  | .cs1 => alookup st.durable (ckOf w) = none
  | .cs2 r => r = R ∧ alookup st.durable (ckOf w) = none ∧ st.fetchLog = [w]
  | .finish res => res = .ok R ∧ alookup st.durable (ckOf w) = some R
  | .done res => res = .ok R ∧ alookup st.durable (ckOf w) = some R

/-- Thread part of the burst-scenario invariant. -/
def TInv (w : WKey) (R : Response) (c : MCfg) : Prop :=
  ∀ i pc, c.threads.get? i = some pc → Obl w R c.st pc

theorem only_holder (c : MCfg) (i j : Nat) (pc : TPC) (hlc : LockCoherent c)
    (hl : c.lock = some i) (hne : j ≠ i) (hold : c.threads.get? j = some pc)
    (hcs : inCS pc = true) : False := by
  have hj := hlc.1 j pc hold hcs
  rw [hl] at hj
  injection hj with hij
  exact hne hij.symm

theorem sinv_step (env : Env) (w : WKey) (R : Response)
    (hup : env.upstream w = .ok R) (hver : is_verified w.action R = .ok true)
    (c c' : MCfg) (hs : MStep env w c c') (hlc : LockCoherent c)
    (hsi : SInvSt env w R c.st) (hti : TInv w R c) :
    SInvSt env w R c'.st ∧ TInv w R c' := by
  cases hs with
  | acquire i h hl =>
      refine ⟨hsi, ?_⟩
      intro j pc hj
      rcases lget_set_cases _ _ _ _ _ hj with ⟨_, hpc⟩ | ⟨_, hold⟩
      · subst hpc
        trivial
      · exact hti j pc hold
  | cs0Hit i r h hl hd =>
      have hrR : r = R := by
        rcases hsi with ⟨_, _, hdn, _⟩ | ⟨_, _, ⟨hdn, _⟩ | ⟨hds, _⟩⟩
        · rw [hdn] at hd
          exact absurd hd (by simp)
        · rw [hdn] at hd
          exact absurd hd (by simp)
        · rw [hds] at hd
          injection hd with hd
          exact hd.symm
      subst hrR
      refine ⟨hsi, ?_⟩
      intro j pc hj
      rcases lget_set_cases _ _ _ _ _ hj with ⟨_, hpc⟩ | ⟨_, hold⟩
      · subst hpc
        exact ⟨rfl, hd⟩
      · exact hti j pc hold
  | cs0Miss i h hl hd =>
      refine ⟨hsi, ?_⟩
      intro j pc hj
      rcases lget_set_cases _ _ _ _ _ hj with ⟨_, hpc⟩ | ⟨_, hold⟩
      · subst hpc
        exact hd
      · exact hti j pc hold
  | cs1Ok i r s' h hl hw =>
      have hdn : alookup c.st.durable (ckOf w) = none := hti i _ h
      rcases hsi with ⟨hf0, htn, hdn0, hw0⟩ | ⟨hf2, hts, hcase⟩
      · -- first fetch: the network call happens now and returns R
        have hwc := weak_cache_miss_ok env w c.st R htn hup
        rw [hwc] at hw
        obtain ⟨h1, h2⟩ := Prod.mk.injEq .. ▸ hw
        injection h1 with h1
        subst h1
        subst h2
        constructor
        · refine Or.inr ⟨?_, lookupT_storeT_self env w R (bumpSt w c.st), Or.inl ⟨hdn0, hw0⟩⟩
          simp [hf0]
        · intro j pc hj
          rcases lget_set_cases _ _ _ _ _ hj with ⟨_, hpc⟩ | ⟨hne, hold⟩
          · subst hpc
            refine ⟨rfl, hdn0, ?_⟩
            simp [hf0]
          · have hobl := hti j pc hold
            cases pc with
            | start => trivial
            | cs0 => trivial
            | cs1 => exact (only_holder c i j _ hlc hl hne hold rfl).elim
            | cs2 r' => exact (only_holder c i j _ hlc hl hne hold rfl).elim
            | finish res' => exact (only_holder c i j _ hlc hl hne hold rfl).elim
            | done res' =>
                obtain ⟨_, hds'⟩ := hobl
                rw [hdn0] at hds'
                exact absurd hds' (by simp)
      · -- transient cache already populated: weak_cache is a pure hit
        have hwc := weak_cache_hit env w c.st R hts
        rw [hwc] at hw
        obtain ⟨h1, h2⟩ := Prod.mk.injEq .. ▸ hw
        injection h1 with h1
        subst h1
        subst h2
        constructor
        · exact Or.inr ⟨hf2, hts, hcase⟩
        · intro j pc hj
          rcases lget_set_cases _ _ _ _ _ hj with ⟨_, hpc⟩ | ⟨_, hold⟩
          · subst hpc
            exact ⟨rfl, hdn, hf2⟩
          · exact hti j pc hold
  | cs1Err i e s' h hl hw =>
      have hdn : alookup c.st.durable (ckOf w) = none := hti i _ h
      rcases hsi with ⟨hf0, htn, hdn0, hw0⟩ | ⟨hf2, hts, hcase⟩
      · have hwc := weak_cache_miss_ok env w c.st R htn hup
        rw [hwc] at hw
        obtain ⟨h1, _⟩ := Prod.mk.injEq .. ▸ hw
        exact absurd h1 (by simp)
      · have hwc := weak_cache_hit env w c.st R hts
        rw [hwc] at hw
        obtain ⟨h1, _⟩ := Prod.mk.injEq .. ▸ hw
        exact absurd h1 (by simp)
  | cs2Ver i r h hl hv =>
      obtain ⟨hrR, hdn, hfl⟩ := hti i _ h
      subst hrR
      rcases hsi with ⟨hf0, _, _, _⟩ | ⟨hf2, hts, hcase⟩
      · rw [hf0] at hfl
        exact absurd hfl (by simp)
      · have hw0 : c.st.durableWrites = 0 := by
          rcases hcase with ⟨_, hw0⟩ | ⟨hds, _⟩
          · exact hw0
          · rw [hdn] at hds
            exact absurd hds (by simp)
        constructor
        · refine Or.inr ⟨by simp [hf2], by simp [hts], Or.inr ⟨?_, by simp [hw0]⟩⟩
          simp [alookup_ainsert_self]
        · intro j pc hj
          rcases lget_set_cases _ _ _ _ _ hj with ⟨_, hpc⟩ | ⟨hne, hold⟩
          · subst hpc
            exact ⟨rfl, by simp [alookup_ainsert_self]⟩
          · have hobl := hti j pc hold
            cases pc with
            | start => trivial
            | cs0 => trivial
            | cs1 => exact (only_holder c i j _ hlc hl hne hold rfl).elim
            | cs2 r' => exact (only_holder c i j _ hlc hl hne hold rfl).elim
            | finish res' => exact (only_holder c i j _ hlc hl hne hold rfl).elim
            | done res' => exact ⟨hobl.1, by simp [alookup_ainsert_self]⟩
  | cs2Unver i r h hl hv =>
      obtain ⟨hrR, _, _⟩ := hti i _ h
      subst hrR
      rw [hver] at hv
      exact absurd hv (by simp)
  | cs2Err i r e h hl hv =>
      obtain ⟨hrR, _, _⟩ := hti i _ h
      subst hrR
      rw [hver] at hv
      exact absurd hv (by simp)
  | release i res h hl =>
      obtain ⟨hres, hds⟩ := hti i _ h
      refine ⟨hsi, ?_⟩
      intro j pc hj
      rcases lget_set_cases _ _ _ _ _ hj with ⟨_, hpc⟩ | ⟨_, hold⟩
      · subst hpc
        exact ⟨hres, hds⟩
      · exact hti j pc hold

theorem sinv_reach (env : Env) (w : WKey) (R : Response) (n : Nat) (c : MCfg)
    (hup : env.upstream w = .ok R) (hver : is_verified w.action R = .ok true)
    (hre : Reach env w (initCfg n) c) :
    SInvSt env w R c.st ∧ TInv w R c := by
  induction hre with
  | refl =>
      constructor
      · exact Or.inl ⟨rfl, rfl, rfl, rfl⟩
      · intro i pc hp
        have hx := lget_replicate _ _ _ _ hp
        subst hx
        trivial
  | tail hre hstep ih =>
      exact sinv_step env w R hup hver _ _ hstep (lc_reach env w n _ hre) ih.1 ih.2

theorem threads_len_step (env : Env) (w : WKey) (c c' : MCfg) (hs : MStep env w c c') :
    c'.threads.length = c.threads.length := by
  cases hs <;> simp

theorem threads_len_reach (env : Env) (w : WKey) (n : Nat) (c : MCfg)
    (hre : Reach env w (initCfg n) c) : c.threads.length = n := by
  induction hre with
  | refl => simp [initCfg]
  | tail hre hstep ih => rw [threads_len_step env w _ _ hstep, ih]

/-- C2: in every reachable configuration of the N-thread machine for one
key, at most one thread is inside the check-fetch-verify-persist critical
section (mutual exclusion); whenever some thread has not finished, a step is
enabled — the lock is released on every exit path, failing ones included, so
no configuration deadlocks; and when all of the N ≥ 1 threads have finished
a burst on an uncached, verifiable key, exactly one upstream fetch was
issued, exactly one durable-cache write happened, and every caller observed
the same payload. -/
theorem C2_stampede_guard (env : Env) (w : WKey) (n : Nat) (c : MCfg)
    (hre : Reach env w (initCfg n) c) :
    MutEx c
    ∧ (¬ allDone c → ∃ c', MStep env w c c')
    ∧ (∀ R : Response, env.upstream w = .ok R → is_verified w.action R = .ok true →
        0 < n → allDone c →
        c.st.fetchLog = [w] ∧ c.st.durableWrites = 1
        ∧ ∀ i res, c.threads.get? i = some (.done res) → res = .ok R) := by
  have hlc := lc_reach env w n c hre
  refine ⟨mutex_of_lc c hlc, progress_of_lc env w c hlc, ?_⟩
  intro R hup hver hn hdone
  obtain ⟨hsi, hti⟩ := sinv_reach env w R n c hup hver hre
  have hlen : c.threads.length = n := threads_len_reach env w n c hre
  obtain ⟨pc0, hp0⟩ := lget_lt_some c.threads 0 (by rw [hlen]; exact hn)
  obtain ⟨res0, hres0⟩ := hdone 0 pc0 hp0
  subst hres0
  obtain ⟨_, hds⟩ := hti 0 _ hp0
  rcases hsi with ⟨_, _, hdn, _⟩ | ⟨hf2, _, hcase⟩
  · rw [hdn] at hds
    exact absurd hds (by simp)
  · rcases hcase with ⟨hdn, _⟩ | ⟨_, hw1⟩
    · rw [hdn] at hds
      exact absurd hds (by simp)
    · refine ⟨hf2, hw1, ?_⟩
      intro i res hi
      exact (hti i _ hi).1

/-- Final configuration of a one-thread run of the machine on the witness
environment: the thread completed with the verified payload, the lock is
free, and the shared state carries the one fetch and one durable write. -/
def c2Final : MCfg :=
  ⟨[TPC.done (.ok respVerified)], none, persistD wkey0 respVerified stAfterVer⟩

/-- C2 witness: a concrete reachable terminal configuration (one thread,
verified key), with the conclusions of `C2_stampede_guard` instantiated
there. -/
theorem C2_stampede_guard_witness :
    allDone c2Final
    ∧ MutEx c2Final
    ∧ c2Final.st.fetchLog = [wkey0]
    ∧ c2Final.st.durableWrites = 1
    ∧ (∀ i res, c2Final.threads.get? i = some (.done res) → res = .ok respVerified) := by
  have hdone : allDone c2Final := by
    intro i pc hp
    cases i with
    | zero =>
        injection hp with hp
        exact ⟨.ok respVerified, hp.symm⟩
    | succ i' => exact absurd hp (by simp [c2Final])
  have r0 : Reach (envWith respVerified) wkey0 (initCfg 1) (initCfg 1) := .refl
  have r1 := Reach.tail r0 (MStep.acquire (initCfg 1) 0 rfl rfl)
  have r2 := Reach.tail r1 (MStep.cs0Miss _ 0 rfl rfl rfl)
  have r3 := Reach.tail r2 (MStep.cs1Ok _ 0 respVerified stAfterVer rfl rfl rfl)
  have r4 := Reach.tail r3 (MStep.cs2Ver _ 0 respVerified rfl rfl rfl)
  have r5 : Reach (envWith respVerified) wkey0 (initCfg 1) c2Final :=
    Reach.tail r4 (MStep.release _ 0 (.ok respVerified) rfl rfl)
  have h := C2_stampede_guard (envWith respVerified) wkey0 1 c2Final r5
  exact ⟨hdone, h.1,
    (h.2.2 respVerified rfl rfl (by omega) hdone).1,
    (h.2.2 respVerified rfl rfl (by omega) hdone).2.1,
    (h.2.2 respVerified rfl rfl (by omega) hdone).2.2⟩

end EtherscanCache
